import Mathlib

/-!
A formal model of taskkit's kit façade (`src/taskkit/kit.py`) and its time
utilities (`src/taskkit/utils.py`).  Pure functions are translated directly;
the side effects of `Kit.start` and `initiate_task` (process management,
backend writes, event publication) are made explicit as returned action
traces and effect lists.  Timestamps are modelled as rationals; `datetime`
values as a whole number of microseconds since the epoch, which is the
precision `datetime.fromtimestamp` keeps.
-/

namespace Taskkit

/-! ## Basic carriers -/

abbrev Group := String
abbrev TaskName := String
abbrev UserData := String
abbrev EncodedData := String
abbrev TaskId := String
abbrev ResultValue := String
abbrev Tz := String
abbrev BackendId := String
abbrev ControllerId := String
abbrev ScheduleEntry := String

/-! ## utils.py: the swappable clock -/

/-- The process-global mutable state of `utils.py`: the module variable
`_cur_ts_impl`, initialised to `time` and reassigned by
`set_cur_ts_impl` / `reset_cur_ts_impl`. -/
structure ClockState where
  cur_ts_impl : Unit → ℚ

/-- `set_cur_ts_impl(impl)`: rebinds the global `_cur_ts_impl` to `impl`. -/
def set_cur_ts_impl (impl : Unit → ℚ) (_s : ClockState) : ClockState :=
  ⟨impl⟩

/-- `reset_cur_ts_impl()`: rebinds the global `_cur_ts_impl` back to the
wall clock `time`. -/
def reset_cur_ts_impl (time : Unit → ℚ) (_s : ClockState) : ClockState :=
  ⟨time⟩

/-- `cur_ts()`: calls whatever `_cur_ts_impl` currently holds. -/
def cur_ts (s : ClockState) : ℚ :=
  s.cur_ts_impl ()

/-- One process-wide operation on the clock module. -/
inductive ClockOp where
  | set (impl : Unit → ℚ)
  | reset
  | read

/-- One operation against the module state: `read` calls `cur_ts()` and
reports its value, `set`/`reset` reassign the global. -/
def clockStep (time : Unit → ℚ) (s : ClockState) : ClockOp → ClockState × Option ℚ
  | .set impl => (set_cur_ts_impl impl s, Option.none)
  | .reset => (reset_cur_ts_impl time s, Option.none)
  | .read => (s, some (cur_ts s))

/-- A sequence of clock operations, returning the final module state and the
values the `cur_ts()` calls returned, in order. -/
def clockRun (time : Unit → ℚ) (s : ClockState) : List ClockOp → ClockState × List ℚ
  | [] => (s, [])
  | op :: ops =>
    let step := clockStep time s op
    let rest := clockRun time step.1 ops
    (rest.1, step.2.toList ++ rest.2)

/-! ## utils.py: `as_ts` and `from_ts` -/

/-- An aware `datetime` as `datetime.fromtimestamp` produces it: a whole
number of microseconds since the epoch, plus the attached `tzinfo` (which
does not enter `timestamp()`'s arithmetic for aware datetimes). -/
structure PyDatetime where
  microseconds : ℤ
  tz : Tz
deriving DecidableEq

/-- Round a rational to the nearest integer with ties to even: the rounding
CPython's `datetime.fromtimestamp` applies to fractional seconds. -/
def roundHalfEven (q : ℚ) : ℤ :=
  if q - ⌊q⌋ < 1 / 2 then ⌊q⌋
  else if 1 / 2 < q - ⌊q⌋ then ⌊q⌋ + 1
  else if ⌊q⌋ % 2 = 0 then ⌊q⌋ else ⌊q⌋ + 1

/-- `from_ts(ts, tzinfo) = datetime.fromtimestamp(ts, tzinfo)`: the instant
rounded to whole microseconds, carrying the given `tzinfo`. -/
def from_ts (ts : ℚ) (tz : Tz) : PyDatetime :=
  ⟨roundHalfEven (ts * 1000000), tz⟩

/-- `datetime.timestamp()`: seconds since the epoch, exact on the stored
microsecond count. -/
def PyDatetime.timestamp (d : PyDatetime) : ℚ :=
  (d.microseconds : ℚ) / 1000000

/-- The argument of `as_ts`: `None`, a `datetime`, or a plain float. -/
inductive TsArg where
  | none
  | dt (d : PyDatetime)
  | fl (ts : ℚ)
deriving DecidableEq

/-- `as_ts(value)`: `None` for `None`, `value.timestamp()` for a `datetime`,
and `value` itself for a float. -/
def as_ts : TsArg → Option ℚ
  | .none => Option.none
  | .dt d => some d.timestamp
  | .fl ts => some ts

/-! ## Task, handler, eager worker (collaborators of `kit.py`) -/

/-- Modelled from the spec: the `Task` value type (its module `task.py` is
not among the sources): an id assigned at creation, the routing group, the
handler name, the encoded payload, the due timestamp, the ttl and the
creation instant. -/
structure Task where
  id : TaskId
  group : Group
  name : TaskName
  data : EncodedData
  due_ts : ℚ
  ttl : ℚ
  created_ts : ℚ
deriving DecidableEq

/-- Modelled from the spec: `Task.init` (from the missing `task.py`) assigns
a fresh globally-unique id and the creation instant, takes the due timestamp
from `due` (due right away when absent), and records group, name, encoded
data and ttl.  The fresh id and the clock reading are passed explicitly. -/
def Task.init (freshId : TaskId) (now : ℚ) (group : Group) (name : TaskName)
    (data : EncodedData) (due : Option ℚ) (ttl : ℚ) : Task :=
  { id := freshId, group := group, name := name, data := data,
    due_ts := due.getD now, ttl := ttl, created_ts := now }

/-- The slice of `TaskHandler` that `kit.py` touches: `encode_data`, plus the
user logic that the eager worker runs on a task. -/
structure TaskHandler where
  encode_data : Group → TaskName → UserData → EncodedData
  run : Task → ResultValue

/-- What `initiate_task` returns: the completed result the eager worker
produced, or a `Result` handle holding the task id for deferred retrieval. -/
inductive ResultHandle where
  | completed (value : ResultValue)
  | deferred (task_id : TaskId)

/-- Modelled from the spec: `EagerWorker.handle_task` (its module `worker.py`
is not among the sources) bypasses the backend and runs the handler
synchronously in the caller, returning the completed Result. -/
def EagerWorker.handle_task (h : TaskHandler) (t : Task) : ResultHandle :=
  ResultHandle.completed (h.run t)

/-- The pluggable collaborators `Kit.__init__` stores; backend and
controller are opaque to `kit.py` and carried by identity. -/
structure Kit where
  backend : BackendId
  controller : ControllerId
  handler : TaskHandler

/-- The observable outcome of one `Kit.initiate_task` call: the tasks the
kit wrote via `backend.put_tasks`, and the returned handle. -/
structure InitiateOutcome where
  put_tasks : List Task
  result : ResultHandle

/-- `Kit.initiate_task`: encode the payload, build the task with
`Task.init`, and either run it eagerly (no backend write) or write it via
`put_tasks` and return a deferred `Result` on its id.  `freshId` and `now`
stand for the fresh id and the clock reading `Task.init` consumes. -/
def Kit.initiate_task (kit : Kit) (group : Group) (name : TaskName)
    (data : UserData) (due : Option ℚ) (ttl : ℚ) (eager : Bool)
    (freshId : TaskId) (now : ℚ) : InitiateOutcome :=
  let encoded := kit.handler.encode_data group name data
  let task := Task.init freshId now group name encoded due ttl
  if eager then
    { put_tasks := [], result := EagerWorker.handle_task kit.handler task }
  else
    { put_tasks := [task], result := ResultHandle.deferred task.id }

/-! ## Controller events -/

/-- The tag of a controller event built by `kit.py`. -/
inductive EventName where
  | shutdown
  | pause
  | resume
deriving DecidableEq

/-- An event dict as `kit.py` builds it: `name` and `groups`, where `groups`
is `None` (all groups) or the list `list(groups)`. -/
structure Event where
  name : EventName
  groups : Option (List Group)
deriving DecidableEq

/-- `list(groups)` on a Python `set[str]`: an enumeration of the set's
elements.  CPython's iteration order is unspecified, so the sorted
enumeration stands for it. -/
def setToList (s : Finset Group) : List Group :=
  s.sort (· ≤ ·)

/-- `Kit.send_shutdown_event(groups)`: the events published via
`controller.send_event`, in order. -/
def send_shutdown_event (groups : Option (Finset Group)) : List Event :=
  [{ name := EventName.shutdown, groups := groups.map setToList }]

/-- `Kit.send_pause_event(groups)`: the events published via
`controller.send_event`, in order. -/
def send_pause_event (groups : Option (Finset Group)) : List Event :=
  [{ name := EventName.pause, groups := groups.map setToList }]

/-- `Kit.send_resume_event(groups)`: the events published via
`controller.send_event`, in order. -/
def send_resume_event (groups : Option (Finset Group)) : List Event :=
  [{ name := EventName.resume, groups := groups.map setToList }]

/-! ## Process handles and the supervisor (`Kit.start*`) -/

/-- A `TaskkitProcess` handle as `start_process` constructs and returns it:
the constructor arguments, and whether `p.start()` ran before the handle was
returned. -/
structure ProcHandle where
  num_worker_threads_per_group : List (Group × Nat)
  backend : BackendId
  controller : ControllerId
  handler : TaskHandler
  schedule_entries : List (Group × List ScheduleEntry)
  tz : Tz
  daemon : Bool
  started : Bool

/-- `Kit.start_process`: build a `TaskkitProcess` from the kit's backend,
controller and handler, resolving `tzinfo or local_tz()`, call `p.start()`,
and return the handle.  `localTz` is what `local_tz()` returns. -/
def Kit.start_process (kit : Kit) (nwt : List (Group × Nat))
    (se : List (Group × List ScheduleEntry)) (tz : Option Tz) (daemon : Bool)
    (localTz : Tz) : ProcHandle :=
  { num_worker_threads_per_group := nwt, backend := kit.backend,
    controller := kit.controller, handler := kit.handler,
    schedule_entries := se, tz := tz.getD localTz, daemon := daemon,
    started := true }

/-- `Kit.start_processes`: one `start_process` call per element of
`range(num_processes)`, collected in order. -/
def Kit.start_processes (kit : Kit) (n : Nat) (nwt : List (Group × Nat))
    (se : List (Group × List ScheduleEntry)) (tz : Option Tz) (daemon : Bool)
    (localTz : Tz) : List ProcHandle :=
  (List.range n).map fun _ => kit.start_process nwt se tz daemon localTz

/-- The observable state of one host process as the supervisor reads it:
`p.is_alive()` and `p.is_active()`. -/
structure ProcState where
  alive : Bool
  active : Bool
deriving DecidableEq

/-- One side effect of the supervisor loop in `Kit.start`, indexed by the
position of the process it touches. -/
inductive SupAction where
  | terminate (i : Nat)
  | join (i : Nat)
  | spawn (i : Nat)
  | sleep
deriving DecidableEq

/-- The body of `for i, p in enumerate(list(processes))` at one index: if
`not p.is_alive() or should_restart(p)`, terminate `p` when still active,
join it, and spawn the replacement `fresh`; otherwise do nothing. -/
def superviseOne (sr : ProcState → Bool) (fresh : ProcState) (i : Nat)
    (p : ProcState) : List SupAction × ProcState :=
  if !p.alive || sr p then
    ((if p.active then [SupAction.terminate i] else [])
      ++ [SupAction.join i, SupAction.spawn i], fresh)
  else
    ([], p)

/-- The `for` loop over the snapshot of the process list, carrying the
running index: the actions in order and the process list afterwards. -/
def superviseList (sr : ProcState → Bool) (fresh : ProcState) :
    Nat → List ProcState → List SupAction × List ProcState
  | _, [] => ([], [])
  | i, p :: ps =>
    let here := superviseOne sr fresh i p
    let rest := superviseList sr fresh (i + 1) ps
    (here.1 ++ rest.1, here.2 :: rest.2)

/-- One pass of the supervisor loop body of `Kit.start`: the `for` loop from
index 0, followed by `time.sleep(1)`. -/
def superviseBody (sr : ProcState → Bool) (fresh : ProcState)
    (ps : List ProcState) : List SupAction × List ProcState :=
  ((superviseList sr fresh 0 ps).1 ++ [SupAction.sleep],
    (superviseList sr fresh 0 ps).2)

/-- The default `should_restart` argument of `Kit.start`:
`lambda _: False`. -/
def default_should_restart : ProcState → Bool :=
  fun _ => false

/-- The exceptions `Kit.start`'s `except` clause catches. -/
inductive Interrupt where
  | keyboard
  | system_exit
  | signal_captured
deriving DecidableEq

/-- What `Kit.start` lets escape after its cleanup: the caught exception
re-raised as-is, or `raise SystemExit from e` — a `SystemExit` whose `code`
attribute is `None`. -/
inductive StartExit where
  | reraise (e : Interrupt)
  | system_exit_none
deriving DecidableEq

/-- `for p in processes: if p.is_active(): p.terminate()`, with indices. -/
def terminateActs : Nat → List ProcState → List SupAction
  | _, [] => []
  | i, p :: ps =>
    (if p.active then [SupAction.terminate i] else []) ++ terminateActs (i + 1) ps

/-- `for p in processes: p.join()`, with indices. -/
def joinActs : Nat → List ProcState → List SupAction
  | _, [] => []
  | i, _ :: ps => SupAction.join i :: joinActs (i + 1) ps

/-- The `except (KeyboardInterrupt, SystemExit, SignalCaptured)` clause of
`Kit.start`: terminate every still-active process, then join every process,
then re-raise — a `SignalCaptured` becomes `raise SystemExit from e`, while
the other two propagate unchanged. -/
def startInterrupted (e : Interrupt) (ps : List ProcState) :
    List SupAction × StartExit :=
  (terminateActs 0 ps ++ joinActs 0 ps,
    match e with
    | .signal_captured => StartExit.system_exit_none
    | .keyboard => StartExit.reraise Interrupt.keyboard
    | .system_exit => StartExit.reraise Interrupt.system_exit)

/-- The process exit status when what `Kit.start` raised escapes the whole
program: CPython exits with status 0 for a `SystemExit` whose `code` is
`None`; for a re-raised exception the status is decided further up the
stack (`none` here). -/
def exitStatus : StartExit → Option Nat
  | .system_exit_none => some 0
  | .reraise _ => Option.none

/-! ## Theorems -/

/-- C1: `initiate_task` with `eager=true` writes nothing to the backend via
`put_tasks` and returns, synchronously, the completed Result produced by
running the handler on the constructed task in the caller. -/
theorem initiate_task_eager_no_backend_write (kit : Kit) (group : Group)
    (name : TaskName) (data : UserData) (due : Option ℚ) (ttl : ℚ)
    (freshId : TaskId) (now : ℚ) :
    (kit.initiate_task group name data due ttl true freshId now).put_tasks = [] ∧
    (kit.initiate_task group name data due ttl true freshId now).result =
      ResultHandle.completed (kit.handler.run
        (Task.init freshId now group name
          (kit.handler.encode_data group name data) due ttl)) :=
  ⟨rfl, rfl⟩

/-- C7: `initiate_task` with `eager=false` constructs exactly one task from
the encoded data with the given group, name, due and ttl, writes exactly that
task via `put_tasks`, and returns a deferred `Result` handle on its id. -/
theorem initiate_task_deferred_spec (kit : Kit) (group : Group)
    (name : TaskName) (data : UserData) (due : Option ℚ) (ttl : ℚ)
    (freshId : TaskId) (now : ℚ) :
    ∃ t : Task,
      (kit.initiate_task group name data due ttl false freshId now).put_tasks
        = [t] ∧
      t.group = group ∧ t.name = name ∧
      t.data = kit.handler.encode_data group name data ∧
      t.due_ts = due.getD now ∧ t.ttl = ttl ∧
      (kit.initiate_task group name data due ttl false freshId now).result =
        ResultHandle.deferred t.id :=
  ⟨Task.init freshId now group name (kit.handler.encode_data group name data)
      due ttl, rfl, rfl, rfl, rfl, rfl, rfl, rfl⟩

/-- C2 counterexample: with one live, active host process, a captured SIGTERM
makes `start` raise `SystemExit` with `code = None`, whose process exit
status is 0 — the success status, not a failure status as claimed. -/
theorem kit_start_sigterm_exit_status_zero :
    (startInterrupted Interrupt.signal_captured [⟨true, true⟩]).2 =
      StartExit.system_exit_none ∧
    exitStatus (startInterrupted Interrupt.signal_captured [⟨true, true⟩]).2 =
      some 0 := by
  decide

/-- C2 (amended): if `start` captures SIGTERM, then after terminating the
still-active host processes and joining all of them it raises `SystemExit`
(code `None`) chained from the captured signal, and the process exit status
that produces is 0, the success status. -/
theorem kit_start_sigterm_raises_system_exit (ps : List ProcState) :
    (startInterrupted Interrupt.signal_captured ps).1 =
      terminateActs 0 ps ++ joinActs 0 ps ∧
    (startInterrupted Interrupt.signal_captured ps).2 =
      StartExit.system_exit_none ∧
    exitStatus (startInterrupted Interrupt.signal_captured ps).2 = some 0 :=
  ⟨rfl, rfl, rfl⟩

/-- C5: the default `should_restart` of `start` returns false on every host
process, so under the default a host's replacement is spawned exactly when
`is_alive()` is false. -/
theorem kit_start_default_should_restart_never (p fresh : ProcState) (i : Nat) :
    default_should_restart p = false ∧
    (SupAction.spawn i ∈ (superviseOne default_should_restart fresh i p).1 ↔
      p.alive = false) := by
  refine ⟨rfl, ?_⟩
  cases ha : p.alive <;>
    simp [superviseOne, default_should_restart, ha]

/-- C6: each of `send_shutdown_event`, `send_pause_event` and
`send_resume_event` publishes exactly one event via the controller, with the
matching name; its groups field is `None` exactly when the argument is
`None`, and otherwise lists exactly the elements of the given set. -/
theorem send_event_variants_spec (s : Finset Group) :
    send_shutdown_event Option.none = [⟨EventName.shutdown, Option.none⟩] ∧
    send_pause_event Option.none = [⟨EventName.pause, Option.none⟩] ∧
    send_resume_event Option.none = [⟨EventName.resume, Option.none⟩] ∧
    (∃ l, send_shutdown_event (some s) = [⟨EventName.shutdown, some l⟩] ∧
      ∀ g, g ∈ l ↔ g ∈ s) ∧
    (∃ l, send_pause_event (some s) = [⟨EventName.pause, some l⟩] ∧
      ∀ g, g ∈ l ↔ g ∈ s) ∧
    (∃ l, send_resume_event (some s) = [⟨EventName.resume, some l⟩] ∧
      ∀ g, g ∈ l ↔ g ∈ s) := by
  refine ⟨rfl, rfl, rfl, ⟨setToList s, rfl, ?_⟩, ⟨setToList s, rfl, ?_⟩,
    ⟨setToList s, rfl, ?_⟩⟩ <;>
  · intro g
    simp [setToList, Finset.mem_sort]

/-- C8: `start_processes` with `num_processes = n` returns exactly `n`
handles, each the result of one identically-configured, already-started
`start_process` call sharing the kit's backend, controller and handler and
the given thread counts and schedule entries; an explicit tzinfo is passed
through, and otherwise `local_tz()` is used. -/
theorem kit_start_processes_spec (kit : Kit) (n : Nat)
    (nwt : List (Group × Nat)) (se : List (Group × List ScheduleEntry))
    (tz : Option Tz) (daemon : Bool) (localTz tzv : Tz) :
    kit.start_processes n nwt se tz daemon localTz =
      List.replicate n (kit.start_process nwt se tz daemon localTz) ∧
    (kit.start_processes n nwt se tz daemon localTz).length = n ∧
    (kit.start_process nwt se tz daemon localTz).started = true ∧
    (kit.start_process nwt se tz daemon localTz).backend = kit.backend ∧
    (kit.start_process nwt se tz daemon localTz).controller = kit.controller ∧
    (kit.start_process nwt se tz daemon localTz).handler = kit.handler ∧
    (kit.start_process nwt se tz daemon
        localTz).num_worker_threads_per_group = nwt ∧
    (kit.start_process nwt se tz daemon localTz).schedule_entries = se ∧
    (kit.start_process nwt se (some tzv) daemon localTz).tz = tzv ∧
    (kit.start_process nwt se Option.none daemon localTz).tz = localTz := by
  refine ⟨?_, ?_, rfl, rfl, rfl, rfl, rfl, rfl, rfl, rfl⟩
  · simp [Kit.start_processes, List.map_const']
  · simp [Kit.start_processes]

/-- Reading the clock repeatedly neither changes the module state nor the
value returned. -/
lemma clockRun_replicate_read (time : Unit → ℚ) (s : ClockState) (n : Nat) :
    clockRun time s (List.replicate n ClockOp.read) =
      (s, List.replicate n (cur_ts s)) := by
  induction n with
  | zero => rfl
  | succ n ih => simp [List.replicate_succ, clockRun, clockStep, ih]

/-- C9: after `set_cur_ts_impl(impl)` every subsequent `cur_ts()` call
returns `impl()`, and after `reset_cur_ts_impl()` every subsequent
`cur_ts()` call returns the wall clock `time()` again. -/
theorem cur_ts_impl_swappable (time impl : Unit → ℚ) (s : ClockState)
    (n : Nat) :
    (clockRun time (set_cur_ts_impl impl s)
        (List.replicate n ClockOp.read)).2 = List.replicate n (impl ()) ∧
    (clockRun time (reset_cur_ts_impl time s)
        (List.replicate n ClockOp.read)).2 = List.replicate n (time ()) := by
  rw [clockRun_replicate_read, clockRun_replicate_read]
  exact ⟨rfl, rfl⟩

/-- Rounding an integer changes nothing. -/
lemma roundHalfEven_intCast (k : ℤ) : roundHalfEven (k : ℚ) = k := by
  norm_num [roundHalfEven, Int.floor_intCast]

/-- C10 counterexample: the sub-microsecond timestamp `1 / 10^7` does not
survive the `from_ts` / `as_ts` round-trip: `fromtimestamp` rounds it to 0
microseconds, so `as_ts` returns 0, not the original value. -/
theorem as_ts_round_trip_fails_sub_microsecond :
    as_ts (TsArg.dt (from_ts (1 / 10000000) "UTC")) ≠
      some (1 / 10000000 : ℚ) := by
  have h1 : roundHalfEven ((1 : ℚ) / 10) = 0 := by
    norm_num [roundHalfEven]
  have h2 : (1 : ℚ) / 10000000 * 1000000 = 1 / 10 := by norm_num
  simp only [as_ts, from_ts, PyDatetime.timestamp, h2, h1]
  norm_num

/-- C10 (amended): the `from_ts` / `as_ts` round-trip is the identity on
every timestamp that is a whole number of microseconds (the precision of
`datetime`); `as_ts` is the identity on plain float inputs; and `as_ts`
returns `None` exactly when its argument is `None`. -/
theorem as_ts_microsecond_round_trip (k : ℤ) (tz : Tz) (ts : ℚ) (x : TsArg) :
    as_ts (TsArg.dt (from_ts ((k : ℚ) / 1000000) tz)) =
      some ((k : ℚ) / 1000000) ∧
    as_ts (TsArg.fl ts) = some ts ∧
    (as_ts x = Option.none ↔ x = TsArg.none) := by
  refine ⟨?_, rfl, ?_⟩
  · have h : ((k : ℚ) / 1000000) * 1000000 = (k : ℚ) := by
      field_simp
    simp [as_ts, from_ts, PyDatetime.timestamp, h, roundHalfEven_intCast]
  · cases x <;> simp [as_ts]

/-- Membership in a conditional singleton. -/
lemma mem_ite_singleton (c : Bool) (a b : SupAction) :
    (a ∈ if c then [b] else []) ↔ c = true ∧ a = b := by
  cases c <;> simp

/-- What one index of the supervisor `for` loop emits: nothing unless the
restart condition holds, and then a join and a spawn, plus a terminate when
the process is still active. -/
lemma mem_superviseOne (sr : ProcState → Bool) (fresh : ProcState) (j : Nat)
    (p : ProcState) (a : SupAction) :
    a ∈ (superviseOne sr fresh j p).1 ↔
      (!p.alive || sr p) = true ∧
        (a = SupAction.join j ∨ a = SupAction.spawn j ∨
          (a = SupAction.terminate j ∧ p.active = true)) := by
  unfold superviseOne
  by_cases hc : (!p.alive || sr p) = true
  · rw [if_pos hc]
    simp only [List.mem_append, mem_ite_singleton, List.mem_cons,
      List.mem_singleton, List.not_mem_nil, or_false, hc, true_and]
    tauto
  · rw [if_neg hc]
    simp only [List.not_mem_nil, false_iff, not_and]
    intro h
    exact absurd h hc

/-- Membership in the actions of the supervisor `for` loop, by index. -/
lemma mem_superviseList (sr : ProcState → Bool) (fresh : ProcState)
    (a : SupAction) (ps : List ProcState) :
    ∀ k : Nat, a ∈ (superviseList sr fresh k ps).1 ↔
      ∃ j p, ps[j]? = some p ∧ a ∈ (superviseOne sr fresh (k + j) p).1 := by
  induction ps with
  | nil => intro k; simp [superviseList]
  | cons p ps ih =>
    intro k
    simp only [superviseList, List.mem_append, ih (k + 1)]
    constructor
    · rintro (h | ⟨j, q, hq, hm⟩)
      · exact ⟨0, p, by simp, by simpa using h⟩
      · have he : k + 1 + j = k + (j + 1) := by omega
        rw [he] at hm
        exact ⟨j + 1, q, by simpa using hq, hm⟩
    · rintro ⟨j, q, hq, hm⟩
      cases j with
      | zero =>
        left
        have h0 : p = q := by simpa using hq
        subst h0
        simpa using hm
      | succ j =>
        right
        have he : k + (j + 1) = k + 1 + j := by omega
        rw [he] at hm
        exact ⟨j, q, by simpa using hq, hm⟩

/-- The process kept at one index of the supervisor `for` loop: the fresh
replacement exactly when the restart condition held. -/
lemma superviseOne_snd (sr : ProcState → Bool) (fresh : ProcState) (i : Nat)
    (p : ProcState) :
    (superviseOne sr fresh i p).2 = if !p.alive || sr p then fresh else p := by
  unfold superviseOne
  by_cases hc : (!p.alive || sr p) = true
  · rw [if_pos hc, if_pos hc]
  · rw [if_neg hc, if_neg hc]

/-- The process list after one supervisor pass: each entry replaced by the
fresh process exactly when its restart condition held. -/
lemma superviseList_snd (sr : ProcState → Bool) (fresh : ProcState)
    (ps : List ProcState) :
    ∀ k : Nat, (superviseList sr fresh k ps).2 =
      ps.map fun p => if !p.alive || sr p then fresh else p := by
  induction ps with
  | nil => intro k; simp [superviseList]
  | cons p ps ih =>
    intro k
    simp only [superviseList, List.map_cons, superviseOne_snd, ih (k + 1)]

/-- C3: in the supervisor loop body of `start`, for each position `i` of the
process list: a terminate is issued at `i` iff the process there fails the
liveness check or `should_restart` and is still active; a join and a fresh
spawn are issued at `i` iff it fails the check; the process at `i`
afterwards is the fresh replacement exactly under that condition and is
untouched otherwise; and the pass ends with the one-second sleep. -/
theorem kit_start_supervisor_iteration_spec (sr : ProcState → Bool)
    (fresh : ProcState) (ps : List ProcState) (i : Nat) :
    (SupAction.terminate i ∈ (superviseBody sr fresh ps).1 ↔
      ∃ p, ps[i]? = some p ∧ (!p.alive || sr p) = true ∧ p.active = true) ∧
    (SupAction.join i ∈ (superviseBody sr fresh ps).1 ↔
      ∃ p, ps[i]? = some p ∧ (!p.alive || sr p) = true) ∧
    (SupAction.spawn i ∈ (superviseBody sr fresh ps).1 ↔
      ∃ p, ps[i]? = some p ∧ (!p.alive || sr p) = true) ∧
    ((superviseBody sr fresh ps).2[i]? =
      (ps[i]?).map fun p => if !p.alive || sr p then fresh else p) ∧
    (superviseBody sr fresh ps).1.getLast? = some SupAction.sleep := by
  refine ⟨?_, ?_, ?_, ?_, ?_⟩
  · simp only [superviseBody, List.mem_append, List.mem_singleton,
      mem_superviseList, mem_superviseOne, Nat.zero_add]
    constructor
    · rintro (⟨j, p, hp, hc, h | h | ⟨h, ha⟩⟩ | h)
      · cases h
      · cases h
      · cases h; exact ⟨p, hp, hc, ha⟩
      · cases h
    · rintro ⟨p, hp, hc, ha⟩
      exact Or.inl ⟨i, p, hp, hc, Or.inr (Or.inr ⟨rfl, ha⟩)⟩
  · simp only [superviseBody, List.mem_append, List.mem_singleton,
      mem_superviseList, mem_superviseOne, Nat.zero_add]
    constructor
    · rintro (⟨j, p, hp, hc, h | h | ⟨h, ha⟩⟩ | h)
      · cases h; exact ⟨p, hp, hc⟩
      · cases h
      · cases h
      · cases h
    · rintro ⟨p, hp, hc⟩
      exact Or.inl ⟨i, p, hp, hc, Or.inl rfl⟩
  · simp only [superviseBody, List.mem_append, List.mem_singleton,
      mem_superviseList, mem_superviseOne, Nat.zero_add]
    constructor
    · rintro (⟨j, p, hp, hc, h | h | ⟨h, ha⟩⟩ | h)
      · cases h
      · cases h; exact ⟨p, hp, hc⟩
      · cases h
      · cases h
    · rintro ⟨p, hp, hc⟩
      exact Or.inl ⟨i, p, hp, hc, Or.inr (Or.inl rfl)⟩
  · simp [superviseBody, superviseList_snd]
  · simp [superviseBody]

/-- Membership in the terminate sweep of `start`'s `except` clause, by
index. -/
lemma terminate_mem_terminateActs (ps : List ProcState) :
    ∀ k i : Nat, SupAction.terminate i ∈ terminateActs k ps ↔
      ∃ j p, ps[j]? = some p ∧ i = k + j ∧ p.active = true := by
  induction ps with
  | nil => intro k i; simp [terminateActs]
  | cons p ps ih =>
    intro k i
    simp only [terminateActs, List.mem_append, mem_ite_singleton,
      SupAction.terminate.injEq, ih (k + 1) i]
    constructor
    · rintro (⟨ha, hik⟩ | ⟨j, q, hq, hi, hact⟩)
      · exact ⟨0, p, by simp, by omega, ha⟩
      · exact ⟨j + 1, q, by simpa using hq, by omega, hact⟩
    · rintro ⟨j, q, hq, hi, hact⟩
      cases j with
      | zero =>
        have h0 : p = q := by simpa using hq
        subst h0
        exact Or.inl ⟨hact, by omega⟩
      | succ j =>
        exact Or.inr ⟨j, q, by simpa using hq, by omega, hact⟩

/-- The terminate sweep issues no join. -/
lemma join_not_mem_terminateActs (ps : List ProcState) :
    ∀ k i : Nat, SupAction.join i ∉ terminateActs k ps := by
  induction ps with
  | nil => intro k i; simp [terminateActs]
  | cons p ps ih =>
    intro k i
    cases ha : p.active <;> simp [terminateActs, ha, ih (k + 1) i]

/-- Membership in the join sweep of `start`'s `except` clause, by index. -/
lemma join_mem_joinActs (ps : List ProcState) :
    ∀ k i : Nat, SupAction.join i ∈ joinActs k ps ↔
      k ≤ i ∧ i < k + ps.length := by
  induction ps with
  | nil => intro k i; simp [joinActs]
  | cons p ps ih =>
    intro k i
    simp only [joinActs, List.mem_cons, ih (k + 1) i, SupAction.join.injEq,
      List.length_cons]
    omega

/-- The join sweep issues no terminate. -/
lemma terminate_not_mem_joinActs (ps : List ProcState) :
    ∀ k i : Nat, SupAction.terminate i ∉ joinActs k ps := by
  induction ps with
  | nil => intro k i; simp [joinActs]
  | cons p ps ih =>
    intro k i
    simp [joinActs, ih (k + 1) i]

/-- C4: whenever `start` is interrupted by `KeyboardInterrupt`, `SystemExit`
or a captured signal, its cleanup is a terminate sweep over exactly the
still-active processes followed by a join sweep over every process, after
which the exception propagates: the keyboard interrupt and `SystemExit` are
re-raised as-is, while the captured signal becomes the signal-induced
`SystemExit`. -/
theorem kit_start_interrupt_cleanup_spec (e : Interrupt)
    (ps : List ProcState) :
    (∃ ts js, (startInterrupted e ps).1 = ts ++ js ∧
      (∀ i, SupAction.terminate i ∈ ts ↔
        ∃ p, ps[i]? = some p ∧ p.active = true) ∧
      (∀ i, SupAction.join i ∈ js ↔ i < ps.length) ∧
      (∀ i, SupAction.join i ∉ ts) ∧
      (∀ i, SupAction.terminate i ∉ js)) ∧
    (startInterrupted Interrupt.keyboard ps).2 =
      StartExit.reraise Interrupt.keyboard ∧
    (startInterrupted Interrupt.system_exit ps).2 =
      StartExit.reraise Interrupt.system_exit ∧
    (startInterrupted Interrupt.signal_captured ps).2 =
      StartExit.system_exit_none := by
  refine ⟨⟨terminateActs 0 ps, joinActs 0 ps, rfl, ?_, ?_, ?_, ?_⟩,
    rfl, rfl, rfl⟩
  · intro i
    rw [terminate_mem_terminateActs ps 0 i]
    constructor
    · rintro ⟨j, p, hp, hi, ha⟩
      subst hi
      exact ⟨p, by simpa using hp, ha⟩
    · rintro ⟨p, hp, ha⟩
      exact ⟨i, p, hp, by omega, ha⟩
  · intro i
    rw [join_mem_joinActs ps 0 i]
    omega
  · intro i
    exact join_not_mem_terminateActs ps 0 i
  · intro i
    exact terminate_not_mem_joinActs ps 0 i

end Taskkit
